import Mathlib

/-!
Shallow embedding of the video-upload task orchestration program
(`video_upload_process.go`, the Excel task parser, and the UI-automation
waiting / date-picker routines) together with proofs about the claims
of its specification.

Modelling conventions:
* Browser/DOM interactions are environment effects.  They are embedded as
  oracle parameters (functions from a tick / index to the observed value):
  `GeneratePage` failures, per-task pipeline failures, element visibility
  at each polling tick, the cells of the visible day grid, and so on.
* Go `error` values are `Option String` (`none` = nil error, `some msg` =
  the text of `err.Error()`).
* A Go slice index out of range is a runtime panic; functions that can
  panic return `Option` (`none` = panic) or a dedicated abort constructor.
* Time is nominal: only `time.Sleep` advances the clock, each sleep by its
  literal duration in seconds.
-/

/-- Embedding of the Go struct `VideoCreateTask` (the `Page` pointer field is
omitted: it is an opaque browser handle never inspected by the logic we
verify). -/
structure VideoCreateTask where
  description : String
  location : String
  collection : String
  link : String
  activity : String
  schedule : Bool
  scheduleTime : String
  shortTitle : String
  action : String
  videoPath : String
  rowIndex : Int
  channelName : String
  success : Bool
  error : String
deriving Repr, DecidableEq

/-- The Go zero value of `VideoCreateTask` (`task := VideoCreateTask{}`). -/
def VideoCreateTask.zero : VideoCreateTask :=
  { description := "", location := "", collection := "", link := "", activity := ""
    schedule := false, scheduleTime := "", shortTitle := "", action := ""
    videoPath := "", rowIndex := 0, channelName := "", success := false, error := "" }

/-- Embedding of `createVideo` (video_upload_process.go:155-182).
`pipelineErr` is the environment outcome of `uploadVideo` followed by
`completeVideoUploadForm` on this task's page.  On a nil error the code sets
`Success = true` and leaves `Error` untouched; on an error it sets
`Success = false` and `Error = err.Error()`. -/
def createVideo (pipelineErr : Option String) (t : VideoCreateTask) : VideoCreateTask :=
  match pipelineErr with
  | none => { t with success := true }
  | some e => { t with success := false, error := e }

/-- The per-index body of the sequential loop of `processTaskSequential`
(video_upload_process.go:97-105): `videoCreateTasks[i] = createVideo(page,
videoCreateTasks[i])`.  `pipe i` is the environment outcome of `createVideo`'s
page interactions for the task at index `i`; page reloads and sleeps between
iterations have no effect on the task list. -/
def processSeqLoop (pipe : Nat → Option String) :
    Nat → List VideoCreateTask → List VideoCreateTask
  | _, [] => []
  | i, t :: rest => createVideo (pipe i) t :: processSeqLoop pipe (i + 1) rest

/-- Embedding of `processTaskSequential` (video_upload_process.go:84-107).
`pageError` is the environment outcome of the single `GeneratePage` call.
When `GeneratePage` fails the code executes `videoCreateTasks[1].Success =
false; videoCreateTasks[1].Error = pageError.Error()` and returns the list;
when the list has fewer than two elements that indexing panics, which the
embedding renders as `none`. -/
def processTaskSequential (pageError : Option String) (pipe : Nat → Option String)
    (tasks : List VideoCreateTask) : Option (List VideoCreateTask) :=
  match pageError with
  | some e =>
      match tasks with
      | t0 :: t1 :: rest => some (t0 :: { t1 with success := false, error := e } :: rest)
      | _ => none
  | none => some (processSeqLoop pipe 0 tasks)

/-- Embedding of the worker-pool sizing of `processTaskConcurrent`
(video_upload_process.go:112-118): `maxConcurrency := 3`, raised to 5 when
`len > 50 && len < 100`, and to 10 when `len > 100`. -/
def maxConcurrency (n : Nat) : Nat :=
  let m := 3
  let m := if 50 < n && n < 100 then 5 else m
  if 100 < n then 10 else m

/-- Outcome of one concurrent worker's `GeneratePage(context, false)` call
(part_002:174-223).  `ok cname`: nil error, non-nil page, channel name
`cname` (part_002:220).  `errLoginInvalid msg`: the login-invalid failure
(part_002:216) — the only failure flavor returning a non-nil page, with an
empty channel name.  `errNilPage msg`: every other failure (part_002:177,
201, 213) returns a nil page together with the error. -/
inductive PageOutcome where
  | ok (channelName : String)
  | errLoginInvalid (msg : String)
  | errNilPage (msg : String)
deriving Repr, DecidableEq

/-- The per-index goroutine body of `processTaskConcurrent`
(video_upload_process.go:129-148).  `pageOut i` is the environment outcome
of this goroutine's `GeneratePage` call.  The statement
`defer (*page).Close()` (video_upload_process.go:137) executes before the
`pageError` check and dereferences the returned page pointer, which is nil
for every failure except the login-invalid one: those failures panic the
goroutine unrecovered, aborting the whole process — no result list exists,
embedded as `none`.  With a non-nil page and a nil error the stored result
is `createVideo(page, videoCreateTasks[i])` applied to the original input
task (overwriting the local copy, so the channel name set beforehand is
lost); with the login-invalid error the local copy is stored with
`Success = false`, the error text, and the empty channel name `GeneratePage`
returned.  Each surviving goroutine writes to its own slot
`videoCreateTasks[index]`, so a completed run is this deterministic map. -/
def processConcLoop (pageOut : Nat → PageOutcome) (pipe : Nat → Option String) :
    Nat → List VideoCreateTask → Option (List VideoCreateTask)
  | _, [] => some []
  | i, t :: rest =>
      match pageOut i with
      | .errNilPage _ => none
      | .ok _ =>
          (processConcLoop pageOut pipe (i + 1) rest).map
            (fun l => createVideo (pipe i) t :: l)
      | .errLoginInvalid e =>
          (processConcLoop pageOut pipe (i + 1) rest).map
            (fun l => { t with channelName := "", success := false, error := e } :: l)

/-- Embedding of `processTaskConcurrent` (video_upload_process.go:110-153):
the semaphore bounds in-flight goroutines but every accepted task either
crashes the process (nil-page `GeneratePage` failure, see `processConcLoop`)
or is eventually processed and written to its own slot. -/
def processTaskConcurrent (pageOut : Nat → PageOutcome) (pipe : Nat → Option String)
    (tasks : List VideoCreateTask) : Option (List VideoCreateTask) :=
  processConcLoop pageOut pipe 0 tasks

/-- A result is determinate when it is either a success with empty error text
or a failure with non-empty error text (spec §3, Result invariant). -/
def determinate (t : VideoCreateTask) : Prop :=
  (t.success = true ∧ t.error = "") ∨ (t.success = false ∧ t.error ≠ "")

/-- Outcome of a bounded wait: success marker seen, failure marker seen, or
deadline exhausted with the given error text. -/
inductive WaitOutcome where
  | success
  | failure (msg : String)
  | timeout (msg : String)
deriving Repr, DecidableEq

/-- The polling loop of `waitForDeleteButton` (part_002:821-847).  `del k` /
`uerr k` are the environment values of `hasDeleteButton` / `hasUploadError`
at the k-th sample; `i` is the sample index, `fuel` the remaining loop
iterations (from `maxWait = 120`).  Each iteration first sleeps 2 seconds,
so the nominal elapsed time when sample `i` is taken is `2*(i+1)` seconds;
the in-loop wall-clock guard fires when that exceeds 300 seconds.  The
second component of the result is the nominal elapsed seconds on return. -/
def waitDeleteLoop (del uerr : Nat → Bool) : Nat → Nat → WaitOutcome × Nat
  | i, 0 => (.timeout "等待删除按钮超时", 2 * i)
  | i, fuel + 1 =>
      if del i then (.success, 2 * (i + 1))
      else if uerr i then (.failure "上传过程中出现错误", 2 * (i + 1))
      else if 300 < 2 * (i + 1) then (.timeout "等待删除按钮超时（5分钟）", 2 * (i + 1))
      else waitDeleteLoop del uerr (i + 1) fuel

/-- Embedding of `waitForDeleteButton` (part_002:815-850): poll every
2 seconds for at most `maxWait = 120` iterations, succeeding when the delete
button appears, failing when an upload error appears, with a 5-minute
wall-clock guard inside the loop and a bare timeout return after the loop. -/
def waitForDeleteButton (del uerr : Nat → Bool) : WaitOutcome × Nat :=
  waitDeleteLoop del uerr 0 120

/-- The polling loop of `waitForActionCompletion` (part_002:1021-1038).
`succ k` / `fail k` are the environment values of `isActionSuccessful` /
`hasActionFailed` at the k-th sample; each iteration sleeps 1 second before
sampling.  When the fuel (from `maxWait = 300`) is exhausted the code
performs one final `isActionSuccessful` check before returning a timeout
(part_002:1039-1044). -/
def waitActionLoop (succ fail : Nat → Bool) (actionName : String) :
    Nat → Nat → WaitOutcome
  | i, 0 => if succ i then .success else .timeout (actionName ++ " 操作超时")
  | i, fuel + 1 =>
      if succ i then .success
      else if fail i then .failure (actionName ++ " 操作失败")
      else waitActionLoop succ fail actionName (i + 1) fuel

/-- Embedding of `waitForActionCompletion` (part_002:1016-1045). -/
def waitForActionCompletion (succ fail : Nat → Bool) (actionName : String) : WaitOutcome :=
  waitActionLoop succ fail actionName 0 300

/-- Substring search on character lists: does `pat` occur contiguously? -/
def listContainsSub (pat : List Char) : List Char → Bool
  | [] => pat.isEmpty
  | c :: rest => pat.isPrefixOf (c :: rest) || listContainsSub pat rest

/-- Embedding of Go `strings.Contains`. -/
def goContains (s sub : String) : Bool :=
  listContainsSub sub.data s.data

/-- Embedding of Go `strings.TrimSpace` (leading and trailing whitespace
removed; the exact Unicode space class is immaterial to the claims). -/
def goTrim (s : String) : String :=
  ⟨((s.data.dropWhile Char.isWhitespace).reverse.dropWhile Char.isWhitespace).reverse⟩

/-- Accumulating decimal reader: `none` as soon as a non-digit appears. -/
def digitsToNatAux (acc : Nat) : List Char → Option Nat
  | [] => some acc
  | c :: rest =>
      if c.isDigit then digitsToNatAux (acc * 10 + (c.toNat - 48)) rest else none

/-- Value of a non-empty all-digit character list, `none` otherwise. -/
def digitsToNat : List Char → Option Nat
  | [] => none
  | l => digitsToNatAux 0 l

/-- Embedding of Go `strconv.Atoi`: optional sign followed by a non-empty
digit string (day/month cell texts; range overflow is irrelevant here). -/
def atoi (s : String) : Option Int :=
  match s.data with
  | '-' :: rest => (digitsToNat rest).map (fun n => -(n : Int))
  | '+' :: rest => (digitsToNat rest).map (fun n => (n : Int))
  | l => (digitsToNat l).map (fun n => (n : Int))

/-- One day cell of the visible picker grid, as observed through the
automation capability: `text` is the result of `TextContent` (`none` = the
read errored) and `cls` the value of the `class` attribute. -/
structure DayCell where
  text : Option String
  cls : String
deriving Repr, DecidableEq

/-- Whether `selectSpecificDay` treats a cell as disabled
(part_002:1603-1608): its class attribute contains `"disabled"`. -/
def dayCellDisabled (c : DayCell) : Bool :=
  goContains c.cls "disabled"

/-- Split a character list into the space-separated tokens (the token view a
CSS class selector matches against). -/
def spaceTokens : List Char → List (List Char)
  | [] => [[]]
  | c :: rest =>
      if c = ' ' then [] :: spaceTokens rest
      else
        match spaceTokens rest with
        | [] => [[c]]
        | tok :: toks => (c :: tok) :: toks

/-- Whether a cell carries the exact class token
`weui-desktop-picker__disabled`, i.e. is filtered out by the
`:not(.weui-desktop-picker__disabled)` selector of
`selectSpecificDayOptimized` (part_002:1640). -/
def dayCellDisabledTok (c : DayCell) : Bool :=
  (spaceTokens c.cls.data).contains "weui-desktop-picker__disabled".data

/-- The scan loop of `selectSpecificDay` (part_002:1583-1629): walk the cells
in order, skip a cell whose text cannot be read or does not parse as a
number, skip a matching cell whose class contains `"disabled"`, and return
the index of the first enabled cell whose parsed text equals `day`. -/
def selectDayScan (day : Int) : Nat → List DayCell → Option Nat
  | _, [] => none
  | i, c :: rest =>
      match c.text with
      | none => selectDayScan day (i + 1) rest
      | some txt =>
          match atoi (goTrim txt) with
          | none => selectDayScan day (i + 1) rest
          | some d =>
              if d = day then
                if dayCellDisabled c then selectDayScan day (i + 1) rest
                else some i
              else selectDayScan day (i + 1) rest

/-- Embedding of `selectSpecificDay` (part_002:1569-1633) under an
environment where clicking the found cell and the subsequent read-back
verification succeed: returns the index of the clicked cell, or the error
`"日期 <day> 未找到"` when no enabled cell matches. -/
def selectSpecificDay (day : Int) (cells : List DayCell) : Except String Nat :=
  match selectDayScan day 0 cells with
  | some i => .ok i
  | none => .error ("日期 " ++ toString day ++ " 未找到")

/-- Embedding of `selectSpecificDayOptimized` (part_002:1635-1691): the same
scan restricted to the cells matching
`.weui-desktop-picker__table a:not(.weui-desktop-picker__disabled)`; the
returned index is into that filtered list, and the no-match error is
`"日期 <day> 不可选择"`.  Inside the filtered list no disabled-class check is
performed, which `selectDayScan` reproduces because a surviving cell may
still have a class containing `"disabled"` only if it is not the exact
filtered token; we therefore inline a scan without the disabled test. -/
def selectDayScanOpt (day : Int) : Nat → List DayCell → Option Nat
  | _, [] => none
  | i, c :: rest =>
      match c.text with
      | none => selectDayScanOpt day (i + 1) rest
      | some txt =>
          match atoi (goTrim txt) with
          | none => selectDayScanOpt day (i + 1) rest
          | some d => if d = day then some i else selectDayScanOpt day (i + 1) rest

/-- Embedding of `selectSpecificDayOptimized` (part_002:1635-1691) under an
environment where the click and verification succeed. -/
def selectSpecificDayOptimized (day : Int) (cells : List DayCell) : Except String Nat :=
  match selectDayScanOpt day 0 (cells.filter (fun c => !dayCellDisabledTok c)) with
  | some i => .ok i
  | none => .error ("日期 " ++ toString day ++ " 不可选择")

/-- Whether the day-selection scan treats cell `c` as carrying the target
day: its text was read successfully and the trimmed text parses to `day`
(part_002:1587-1601). -/
def cellMatches (day : Int) (c : DayCell) : Bool :=
  match c.text with
  | none => false
  | some txt => atoi (goTrim txt) == some day

/-- Actions issued against the date-picker page by the month navigation. -/
inductive PickerAct where
  | clickNext
  | readMonth
deriving Repr, DecidableEq

/-- The body of the arrow-click loop of `selectSpecificMonth`
(part_002:1474-1488): each iteration clicks the right arrow once and then
re-reads the current month (`getCurrentMonth`, its value only logged). -/
def clickReadSeq : Nat → List PickerAct
  | 0 => []
  | n + 1 => .clickNext :: .readMonth :: clickReadSeq n

/-- The number of right-arrow clicks computed by `selectSpecificMonth`
(part_002:1460-1463): `diff := targetMonth - currentMonth`, plus 12 when
negative.  Only reached when the months differ. -/
def monthClickDelta (currentMonth targetMonth : Int) : Nat :=
  (if targetMonth - currentMonth < 0 then targetMonth - currentMonth + 12
   else targetMonth - currentMonth).toNat

/-- Embedding of `selectSpecificMonth` (part_002:1442-1502) as the trace of
picker actions it issues when the initial `getCurrentMonth` read returns
`currentMonth` and every click succeeds: an initial read; nothing more when
the month already matches; otherwise `monthClickDelta` click/read pairs
followed by the final verification read (part_002:1491). -/
def selectSpecificMonthTrace (currentMonth targetMonth : Int) : List PickerAct :=
  .readMonth ::
    (if currentMonth = targetMonth then []
     else clickReadSeq (monthClickDelta currentMonth targetMonth) ++ [.readMonth])

/-- How `parseTaskFromRow` can abort: a slice-index panic, or an `error`
return with the given message. -/
inductive ParseAbort where
  | panic
  | failure (msg : String)
deriving Repr, DecidableEq

/-- Go `row[i]` on a `[]string`: the value, or a panic when out of range. -/
def goCell (row : List String) (i : Nat) : Except ParseAbort String :=
  match row.get? i with
  | some s => .ok s
  | none => .error .panic

/-- Embedding of `parseTaskFromRow` (part_000:108-204).  `schedCheck s` is
the environment outcome of the schedule-time validation on the trimmed cell
`s` (`time.Parse` + the now-relative 30-day window, part_000:151-159):
`none` = valid, `some msg` = the error message.  `fileCheck p` likewise
embeds `checkFileExists` on path `p` (part_000:195): `none` = the file
exists.  Cell reads guarded by a length check use `getD`; the unguarded
reads of `row[5]` and `row[6]` on part_000:144 go through `goCell` and can
panic. -/
def parseTaskFromRow (schedCheck fileCheck : String → Option String)
    (row : List String) : Except ParseAbort VideoCreateTask := do
  let mut task : VideoCreateTask := VideoCreateTask.zero
  if 0 < row.length then
    task := { task with description := goTrim (row.getD 0 "") }
  if 1 < row.length then
    task := { task with location := goTrim (row.getD 1 "") }
  if 2 < row.length then
    task := { task with collection := goTrim (row.getD 2 "") }
  if 3 < row.length then
    task := { task with link := goTrim (row.getD 3 "") }
  if 4 < row.length then
    task := { task with activity := goTrim (row.getD 4 "") }
  if 5 < row.length then
    task := { task with schedule := goTrim (row.getD 5 "") = "定时" }
  let r5 ← goCell row 5
  if r5 = "定时" then
    let r6 ← goCell row 6
    if r6 = "" then
      throw (.failure "定时发表时定时时间不能为空")
  if 6 < row.length then
    task := { task with scheduleTime := goTrim (row.getD 6 "") }
    if r5 = "定时" ∧ task.scheduleTime ≠ "" then
      match schedCheck task.scheduleTime with
      | some msg => throw (.failure msg)
      | none => pure ()
  if 7 < row.length then
    task := { task with shortTitle := goTrim (row.getD 7 "") }
  if 8 < row.length then
    let act := goTrim (row.getD 8 "")
    if r5 = "定时" ∧ row.getD 8 "" = "保存草稿" then
      throw (.failure "定时发表方式必须以发表方式保存")
    if act = "保存草稿" then
      task := { task with action := "save_draft" }
    else if act = "手机预览" then
      task := { task with action := "preview" }
    else if act = "发表" then
      task := { task with action := "publish" }
    else
      throw (.failure ("不支持的保存方式: " ++ act))
  else
    throw (.failure "缺少保存方式")
  if 9 < row.length then
    let videoPath := goTrim (row.getD 9 "")
    if videoPath = "" then
      throw (.failure "视频位置不能为空")
    match fileCheck videoPath with
    | some msg =>
        throw (.failure ("视频文件不存在: " ++ videoPath ++ ", " ++ msg))
    | none =>
        task := { task with videoPath := videoPath }
  else
    throw (.failure "缺少视频位置")
  return task

set_option maxRecDepth 4000

/-! ## Helper lemmas -/

theorem createVideo_rowIndex (e : Option String) (t : VideoCreateTask) :
    (createVideo e t).rowIndex = t.rowIndex := by
  cases e <;> rfl

theorem processSeqLoop_rowIndex (pipe : Nat → Option String)
    (tasks : List VideoCreateTask) :
    ∀ i, (processSeqLoop pipe i tasks).map VideoCreateTask.rowIndex =
      tasks.map VideoCreateTask.rowIndex := by
  induction tasks with
  | nil => intro i; rfl
  | cons t rest ih =>
      intro i
      simp only [processSeqLoop, List.map_cons, createVideo_rowIndex, ih]

theorem processConcLoop_rowIndex (pageOut : Nat → PageOutcome)
    (pipe : Nat → Option String) (tasks : List VideoCreateTask) :
    ∀ i res, processConcLoop pageOut pipe i tasks = some res →
      res.map VideoCreateTask.rowIndex = tasks.map VideoCreateTask.rowIndex := by
  induction tasks with
  | nil =>
      intro i res h
      cases Option.some.inj h
      rfl
  | cons t rest ih =>
      intro i res h
      cases hp : pageOut i with
      | errNilPage e => simp [processConcLoop, hp] at h
      | ok c =>
          simp only [processConcLoop, hp] at h
          cases hrec : processConcLoop pageOut pipe (i + 1) rest with
          | none => rw [hrec] at h; simp at h
          | some l =>
              rw [hrec] at h
              simp only [Option.map_some'] at h
              cases Option.some.inj h
              simp [List.map_cons, createVideo_rowIndex, ih (i + 1) l hrec]
      | errLoginInvalid e =>
          simp only [processConcLoop, hp] at h
          cases hrec : processConcLoop pageOut pipe (i + 1) rest with
          | none => rw [hrec] at h; simp at h
          | some l =>
              rw [hrec] at h
              simp only [Option.map_some'] at h
              cases Option.some.inj h
              simp [List.map_cons, ih (i + 1) l hrec]

theorem createVideo_determinate (e : Option String) (t : VideoCreateTask)
    (hinit : t.error = "") (he : ∀ s, e = some s → s ≠ "") :
    determinate (createVideo e t) := by
  cases e with
  | none => exact Or.inl ⟨rfl, hinit⟩
  | some s => exact Or.inr ⟨rfl, he s rfl⟩

theorem processSeqLoop_determinate (pipe : Nat → Option String)
    (hpipe : ∀ i e, pipe i = some e → e ≠ "")
    (tasks : List VideoCreateTask) :
    ∀ i, (∀ t ∈ tasks, t.error = "") →
      ∀ r ∈ processSeqLoop pipe i tasks, determinate r := by
  induction tasks with
  | nil =>
      intro i _ r hr
      simp only [processSeqLoop] at hr
      cases hr
  | cons t rest ih =>
      intro i hinit r hr
      simp only [processSeqLoop] at hr
      rcases List.mem_cons.mp hr with h | h
      · subst h
        exact createVideo_determinate _ _ (hinit t (List.mem_cons_self t rest))
          (fun s hs => hpipe i s hs)
      · exact ih (i + 1) (fun u hu => hinit u (List.mem_cons_of_mem _ hu)) r h

theorem processConcLoop_determinate (pageOut : Nat → PageOutcome)
    (pipe : Nat → Option String)
    (hpipe : ∀ i e, pipe i = some e → e ≠ "")
    (hpage : ∀ i e, pageOut i = .errLoginInvalid e → e ≠ "")
    (tasks : List VideoCreateTask) :
    ∀ i, (∀ t ∈ tasks, t.error = "") →
      ∀ res, processConcLoop pageOut pipe i tasks = some res →
        ∀ r ∈ res, determinate r := by
  induction tasks with
  | nil =>
      intro i _ res h r hr
      cases Option.some.inj h
      cases hr
  | cons t rest ih =>
      intro i hinit res h r hr
      cases hp : pageOut i with
      | errNilPage e => simp [processConcLoop, hp] at h
      | ok c =>
          simp only [processConcLoop, hp] at h
          cases hrec : processConcLoop pageOut pipe (i + 1) rest with
          | none => rw [hrec] at h; simp at h
          | some l =>
              rw [hrec] at h
              simp only [Option.map_some'] at h
              cases Option.some.inj h
              rcases List.mem_cons.mp hr with hh | hh
              · subst hh
                exact createVideo_determinate _ _ (hinit t (List.mem_cons_self t rest))
                  (fun s hs => hpipe i s hs)
              · exact ih (i + 1) (fun u hu => hinit u (List.mem_cons_of_mem _ hu))
                  l hrec r hh
      | errLoginInvalid e =>
          simp only [processConcLoop, hp] at h
          cases hrec : processConcLoop pageOut pipe (i + 1) rest with
          | none => rw [hrec] at h; simp at h
          | some l =>
              rw [hrec] at h
              simp only [Option.map_some'] at h
              cases Option.some.inj h
              rcases List.mem_cons.mp hr with hh | hh
              · subst hh
                exact Or.inr ⟨rfl, hpage i e hp⟩
              · exact ih (i + 1) (fun u hu => hinit u (List.mem_cons_of_mem _ hu))
                  l hrec r hh

/-! ## Claim theorems -/

/-- C1 (counterexample): on exactly 100 jobs `processTaskConcurrent` sizes the
worker pool at 3, not at the 5 the claim assigns to the range 51–100. -/
theorem maxConcurrency_boundary_100 : maxConcurrency 100 = 3 ∧ maxConcurrency 100 ≠ 5 := by
  decide

/-- C1 (amended): the worker-pool size is 3 for at most 50 jobs, 5 for 51–99
jobs, 3 again for exactly 100 jobs, and 10 for more than 100 jobs. -/
theorem maxConcurrency_tiers (n : Nat) :
    (n ≤ 50 → maxConcurrency n = 3) ∧ (51 ≤ n → n ≤ 99 → maxConcurrency n = 5) ∧
    maxConcurrency 100 = 3 ∧ (100 < n → maxConcurrency n = 10) := by
  refine ⟨?_, ?_, by decide, ?_⟩
  · intro h
    have h1 : ¬ (50 < n) := by omega
    have h2 : ¬ (100 < n) := by omega
    simp [maxConcurrency, h1, h2]
  · intro h1 h2
    have ha : 50 < n := by omega
    have hb : n < 100 := by omega
    have hc : ¬ (100 < n) := by omega
    simp [maxConcurrency, ha, hb, hc]
  · intro h
    simp [maxConcurrency, h]

/-- C1 witness: the three tiers evaluated at 10, 75 and 150 jobs. -/
theorem maxConcurrency_tiers_witness :
    maxConcurrency 10 = 3 ∧ maxConcurrency 75 = 5 ∧ maxConcurrency 150 = 10 :=
  ⟨(maxConcurrency_tiers 10).1 (by decide),
   (maxConcurrency_tiers 75).2.1 (by decide) (by decide),
   (maxConcurrency_tiers 150).2.2.2 (by decide)⟩

/-- C2: when page acquisition fails in sequential mode the error is written
into the task at the fixed index 1 — the second job — while the first job
(which the failure equally affects) is returned untouched; the recording
index is independent of which job triggered anything. -/
theorem pageError_recorded_at_fixed_index_one :
    processTaskSequential (some "创建上传页面失败或登录失效") (fun _ => none)
        [{ VideoCreateTask.zero with rowIndex := 2 },
         { VideoCreateTask.zero with rowIndex := 3 }] =
      some [{ VideoCreateTask.zero with rowIndex := 2 },
            { VideoCreateTask.zero with
              rowIndex := 3
              success := false
              error := "创建上传页面失败或登录失效" }] := rfl

/-- C4: whenever dispatch returns a result list at all, that list preserves
length and per-index row identity (the row-index column of the output equals
that of the input): every returned concurrent result, and every sequential
run with a successful page acquisition.  But the program can also return no
list at all: a concurrent worker whose `GeneratePage` fails with a nil page
panics on `defer (*page).Close()` and aborts the process, and sequential
dispatch with a failed page acquisition on a single-job list panics on the
out-of-range `videoCreateTasks[1]` write. -/
theorem dispatch_preserves_rowIndex_or_panics :
    (∀ (pageOut : Nat → PageOutcome) (pipe : Nat → Option String)
        (tasks res : List VideoCreateTask),
        processTaskConcurrent pageOut pipe tasks = some res →
        res.map VideoCreateTask.rowIndex = tasks.map VideoCreateTask.rowIndex) ∧
    (∀ (pipe : Nat → Option String) (tasks : List VideoCreateTask),
        (processTaskSequential none pipe tasks).map (List.map VideoCreateTask.rowIndex) =
          some (tasks.map VideoCreateTask.rowIndex)) ∧
    processTaskConcurrent (fun _ => .errNilPage "创建页面失败") (fun _ => none)
      [VideoCreateTask.zero] = none ∧
    processTaskSequential (some "创建上传页面失败") (fun _ => none)
      [VideoCreateTask.zero] = none := by
  refine ⟨?_, ?_, rfl, rfl⟩
  · intro pageOut pipe tasks res h
    exact processConcLoop_rowIndex pageOut pipe tasks 0 res h
  · intro pipe tasks
    exact congrArg some (processSeqLoop_rowIndex pipe tasks 0)

/-- C4 witness: a concurrent run over two jobs (rows 0 and 3) whose workers
both hit the login-invalid page failure still returns both slots with their
row indices preserved. -/
theorem dispatch_preserves_rowIndex_or_panics_witness :
    [{ VideoCreateTask.zero with
       channelName := ""
       success := false
       error := "登录信息失效" },
     { VideoCreateTask.zero with
       rowIndex := 3
       channelName := ""
       success := false
       error := "登录信息失效" }].map VideoCreateTask.rowIndex =
      [VideoCreateTask.zero,
       { VideoCreateTask.zero with rowIndex := 3 }].map VideoCreateTask.rowIndex :=
  dispatch_preserves_rowIndex_or_panics.1
    (fun _ => .errLoginInvalid "登录信息失效") (fun _ => none)
    [VideoCreateTask.zero, { VideoCreateTask.zero with rowIndex := 3 }] _ rfl

/-- C9: the error-recording branch of `processTaskSequential` indexes the
fixed slot 1, so on a non-empty single-job list it goes out of range
(a Go runtime panic, embedded as `none`). -/
theorem sequential_pageError_singleton_panics :
    processTaskSequential (some "创建上传页面失败") (fun _ => none)
      [{ VideoCreateTask.zero with rowIndex := 2 }] = none := rfl

/-- C10: `parseTaskFromRow` reads `row[5]` and `row[6]` without a length
guard, so a five-cell row panics (out-of-range index 5) and a six-cell row
whose sixth cell is the schedule marker panics (out-of-range index 6),
whatever the schedule-time and file-existence environments say. -/
theorem parseTaskFromRow_unguarded_cells_panic
    (schedCheck fileCheck : String → Option String) :
    parseTaskFromRow schedCheck fileCheck ["a", "b", "c", "d", "e"] = .error .panic ∧
    parseTaskFromRow schedCheck fileCheck ["", "", "", "", "", "定时"] = .error .panic :=
  ⟨rfl, rfl⟩

/-- C3 (counterexample): in sequential mode a page-acquisition failure
returns early with only index 1 marked; the first job's result is still the
zero task — `success = false` with an empty error — i.e. indeterminate. -/
theorem sequential_pageError_indeterminate_sibling :
    processTaskSequential (some "创建上传页面失败") (fun _ => none)
        [VideoCreateTask.zero, { VideoCreateTask.zero with rowIndex := 3 }] =
      some [VideoCreateTask.zero,
            { VideoCreateTask.zero with
              rowIndex := 3
              success := false
              error := "创建上传页面失败" }] ∧
    ¬ determinate VideoCreateTask.zero := by
  refine ⟨rfl, ?_⟩
  simp [determinate, VideoCreateTask.zero]

/-- C3 (amended): provided all tasks start with an empty error text and every
environment error message is non-empty, every job in a result list the
dispatcher actually returns is determinate: all results of concurrent
dispatch whenever it returns at all (a nil-page `GeneratePage` failure
instead aborts the process with no results), and all results of sequential
dispatch whenever page acquisition succeeded.  (Jobs skipped by a sequential
page-acquisition failure can stay indeterminate, as the counterexample
shows.) -/
theorem dispatch_results_determinate (pageOut : Nat → PageOutcome)
    (pipe : Nat → Option String) (tasks : List VideoCreateTask)
    (hinit : ∀ t ∈ tasks, t.error = "")
    (hpipe : ∀ i e, pipe i = some e → e ≠ "")
    (hpage : ∀ i e, pageOut i = .errLoginInvalid e → e ≠ "") :
    (∀ res, processTaskConcurrent pageOut pipe tasks = some res →
      ∀ r ∈ res, determinate r) ∧
    ∀ res, processTaskSequential none pipe tasks = some res →
      ∀ r ∈ res, determinate r := by
  constructor
  · intro res hres r hr
    exact processConcLoop_determinate pageOut pipe hpipe hpage tasks 0 hinit res hres r hr
  · intro res hres r hr
    cases Option.some.inj hres
    exact processSeqLoop_determinate pipe hpipe tasks 0 hinit r hr

/-- C3 witness: the amended invariant applied to a one-job concurrent run
whose page acquisition succeeds and whose pipeline fails with the non-empty
message `"上传失败"`. -/
theorem dispatch_results_determinate_witness :
    determinate { VideoCreateTask.zero with success := false, error := "上传失败" } :=
  (dispatch_results_determinate (fun _ => .ok "") (fun _ => some "上传失败")
      [VideoCreateTask.zero]
      (by decide)
      (by intro i e he; injection he with h; subst h; decide)
      (by intro i e he; simp at he)).1
    _ rfl _ (by decide)

theorem waitDeleteLoop_notfound (del uerr : Nat → Bool) :
    ∀ (fuel i : Nat), i + fuel ≤ 150 →
      (∀ j, i ≤ j → j < i + fuel → del j = false ∧ uerr j = false) →
      waitDeleteLoop del uerr i fuel = (.timeout "等待删除按钮超时", 2 * (i + fuel)) := by
  intro fuel
  induction fuel with
  | zero => intro i _ _; simp [waitDeleteLoop]
  | succ f ih =>
      intro i hle h
      have hdel : del i = false := (h i (le_refl i) (by omega)).1
      have huerr : uerr i = false := (h i (le_refl i) (by omega)).2
      have hguard : ¬ (300 < 2 * (i + 1)) := by omega
      have step : waitDeleteLoop del uerr i (f + 1) = waitDeleteLoop del uerr (i + 1) f := by
        simp [waitDeleteLoop, hdel, huerr, hguard]
      rw [step, ih (i + 1) (by omega) (fun j hj1 hj2 => h j (by omega) (by omega))]
      have harith : i + 1 + f = i + (f + 1) := by omega
      rw [harith]

theorem waitDeleteLoop_first_success (del uerr : Nat → Bool) :
    ∀ (fuel i k : Nat), i ≤ k → k < i + fuel → k < 150 → del k = true →
      (∀ j, i ≤ j → j < k → del j = false ∧ uerr j = false) →
      waitDeleteLoop del uerr i fuel = (.success, 2 * (k + 1)) := by
  intro fuel
  induction fuel with
  | zero => intro i k h1 h2 _ _ _; exact ((by omega : False).elim)
  | succ f ih =>
      intro i k h1 h2 h3 hk h
      by_cases hik : i = k
      · subst hik
        simp [waitDeleteLoop, hk]
      · have hdel : del i = false := (h i (le_refl i) (by omega)).1
        have huerr : uerr i = false := (h i (le_refl i) (by omega)).2
        have hguard : ¬ (300 < 2 * (i + 1)) := by omega
        have step : waitDeleteLoop del uerr i (f + 1) = waitDeleteLoop del uerr (i + 1) f := by
          simp [waitDeleteLoop, hdel, huerr, hguard]
        rw [step]
        exact ih (i + 1) k (by omega) (by omega) h3 hk (fun j hj1 hj2 => h j (by omega) hj2)

theorem waitDeleteLoop_first_failure (del uerr : Nat → Bool) :
    ∀ (fuel i k : Nat), i ≤ k → k < i + fuel → k < 150 → del k = false → uerr k = true →
      (∀ j, i ≤ j → j < k → del j = false ∧ uerr j = false) →
      waitDeleteLoop del uerr i fuel = (.failure "上传过程中出现错误", 2 * (k + 1)) := by
  intro fuel
  induction fuel with
  | zero => intro i k h1 h2 _ _ _ _; exact ((by omega : False).elim)
  | succ f ih =>
      intro i k h1 h2 h3 hkd hku h
      by_cases hik : i = k
      · subst hik
        simp [waitDeleteLoop, hkd, hku]
      · have hdel : del i = false := (h i (le_refl i) (by omega)).1
        have huerr : uerr i = false := (h i (le_refl i) (by omega)).2
        have hguard : ¬ (300 < 2 * (i + 1)) := by omega
        have step : waitDeleteLoop del uerr i (f + 1) = waitDeleteLoop del uerr (i + 1) f := by
          simp [waitDeleteLoop, hdel, huerr, hguard]
        rw [step]
        exact ih (i + 1) k (by omega) (by omega) h3 hkd hku
          (fun j hj1 hj2 => h j (by omega) hj2)

/-- C5 (counterexample): with no marker ever appearing, the upload wait
reports its timeout after 240 nominal seconds of sleeping — before the
claimed 5-minute (300 s) deadline has elapsed. -/
theorem waitForDeleteButton_timeout_at_240 :
    waitForDeleteButton (fun _ => false) (fun _ => false) =
      (.timeout "等待删除按钮超时", 240) ∧ (240 : Nat) < 300 :=
  ⟨by decide, by decide⟩

/-- C5 (amended): the upload wait polls at a 2-second interval for at most
120 polls; it succeeds at the first poll that sees the delete affordance,
fails at the first poll that sees the upload-error affordance (the delete
check coming first each tick), and otherwise reports a timeout after the
120th poll — 240 nominal seconds, not the full 5 minutes; the in-loop
5-minute wall-clock guard cannot fire under nominal timing. -/
theorem waitForDeleteButton_behaviour (del uerr : Nat → Bool) :
    ((∀ j, j < 120 → del j = false ∧ uerr j = false) →
      waitForDeleteButton del uerr = (.timeout "等待删除按钮超时", 240)) ∧
    (∀ k, k < 120 → del k = true →
      (∀ j, j < k → del j = false ∧ uerr j = false) →
      waitForDeleteButton del uerr = (.success, 2 * (k + 1))) ∧
    (∀ k, k < 120 → del k = false → uerr k = true →
      (∀ j, j < k → del j = false ∧ uerr j = false) →
      waitForDeleteButton del uerr = (.failure "上传过程中出现错误", 2 * (k + 1))) := by
  refine ⟨?_, ?_, ?_⟩
  · intro h
    have := waitDeleteLoop_notfound del uerr 120 0 (by omega)
      (fun j _ hj => h j (by omega))
    simpa [waitForDeleteButton] using this
  · intro k hk hdk h
    exact waitDeleteLoop_first_success del uerr 120 0 k (Nat.zero_le k) (by omega)
      (by omega) hdk (fun j _ hj => h j hj)
  · intro k hk hdk huk h
    exact waitDeleteLoop_first_failure del uerr 120 0 k (Nat.zero_le k) (by omega)
      (by omega) hdk huk (fun j _ hj => h j hj)

/-- C5 witness: a delete affordance first visible at the fourth sample yields
success after 8 nominal seconds. -/
theorem waitForDeleteButton_behaviour_witness :
    waitForDeleteButton (fun i => decide (i = 3)) (fun _ => false) = (.success, 8) :=
  (waitForDeleteButton_behaviour (fun i => decide (i = 3)) (fun _ => false)).2.1 3
    (by decide) (by decide) (by decide)

theorem waitActionLoop_skips (succ fail : Nat → Bool) (actionName : String) :
    ∀ (fuel i : Nat),
      (∀ j, i ≤ j → j < i + fuel → succ j = false ∧ fail j = false) →
      waitActionLoop succ fail actionName i fuel =
        (if succ (i + fuel) = true then .success
         else .timeout (actionName ++ " 操作超时")) := by
  intro fuel
  induction fuel with
  | zero => intro i _; simp [waitActionLoop]
  | succ f ih =>
      intro i h
      have h1 : succ i = false := (h i (le_refl i) (by omega)).1
      have h2 : fail i = false := (h i (le_refl i) (by omega)).2
      have step : waitActionLoop succ fail actionName i (f + 1) =
          waitActionLoop succ fail actionName (i + 1) f := by
        simp [waitActionLoop, h1, h2]
      rw [step, ih (i + 1) (fun j hj1 hj2 => h j (by omega) (by omega))]
      have harith : i + 1 + f = i + (f + 1) := by omega
      rw [harith]

/-- C6 (counterexample): a success marker that becomes visible only from the
301st sample on — i.e. during/after the last sleep window — is caught by the
final re-check of the action-completion wait, but the same late marker
(visible from the 121st sample on) is missed by the upload wait, which
returns a timeout with no final check. -/
theorem upload_wait_misses_last_window_marker :
    waitForActionCompletion (fun i => decide (300 ≤ i)) (fun _ => false) "发表" =
      .success ∧
    waitForDeleteButton (fun i => decide (120 ≤ i)) (fun _ => false) =
      (.timeout "等待删除按钮超时", 240) :=
  ⟨by decide, by decide⟩

/-- C6 (amended): only the action-completion wait performs one final success
check immediately before returning Timeout — a marker appearing during the
last sleep interval still yields Success there; the upload wait performs no
final check and returns its timeout regardless of any marker that appears
after its 120th sample. -/
theorem final_check_asymmetry (succ fail del uerr : Nat → Bool) (actionName : String) :
    ((∀ j, j < 300 → succ j = false ∧ fail j = false) → succ 300 = true →
      waitForActionCompletion succ fail actionName = .success) ∧
    ((∀ j, j < 120 → del j = false ∧ uerr j = false) →
      waitForDeleteButton del uerr = (.timeout "等待删除按钮超时", 240)) := by
  constructor
  · intro h hsucc
    have := waitActionLoop_skips succ fail actionName 300 0
      (fun j _ hj => h j (by omega))
    simpa [waitForActionCompletion, hsucc] using this
  · intro h
    have := waitDeleteLoop_notfound del uerr 120 0 (by omega)
      (fun j _ hj => h j (by omega))
    simpa [waitForDeleteButton] using this

/-- C6 witness: the final-check behaviour of the action wait at a concrete
late-appearing success marker. -/
theorem final_check_asymmetry_witness :
    waitForActionCompletion (fun i => decide (299 < i)) (fun _ => false) "保存草稿" =
      .success :=
  (final_check_asymmetry (fun i => decide (299 < i)) (fun _ => false)
      (fun _ => false) (fun _ => false) "保存草稿").1 (by decide) (by decide)

theorem clickReadSeq_count (n : Nat) :
    (clickReadSeq n).count PickerAct.clickNext = n := by
  induction n with
  | zero => rfl
  | succ m ih => simp [clickReadSeq, List.count_cons, ih]

theorem clickReadSeq_followed (n : Nat) :
    ∀ i, (clickReadSeq n ++ [PickerAct.readMonth]).get? i = some PickerAct.clickNext →
      (clickReadSeq n ++ [PickerAct.readMonth]).get? (i + 1) = some PickerAct.readMonth := by
  induction n with
  | zero =>
      intro i h
      cases i with
      | zero => simp [clickReadSeq] at h
      | succ k => simp [clickReadSeq] at h
  | succ m ih =>
      intro i h
      cases i with
      | zero => rfl
      | succ i' =>
          cases i' with
          | zero => simp [clickReadSeq] at h
          | succ k => exact ih k h

/-- C8: `selectSpecificMonth` issues exactly `((target - current) mod 12)`
next-month clicks (for displayed and target months in 1..12), issues zero
clicks when the displayed month already equals the target, and every click
in its action trace is immediately followed by a re-read of the displayed
month. -/
theorem month_navigation_click_count (c t : Int)
    (hc1 : 1 ≤ c) (hc2 : c ≤ 12) (ht1 : 1 ≤ t) (ht2 : t ≤ 12) :
    (selectSpecificMonthTrace c t).count PickerAct.clickNext = ((t - c) % 12).toNat ∧
    (c = t → (selectSpecificMonthTrace c t).count PickerAct.clickNext = 0) ∧
    (∀ i, (selectSpecificMonthTrace c t).get? i = some PickerAct.clickNext →
      (selectSpecificMonthTrace c t).get? (i + 1) = some PickerAct.readMonth) := by
  refine ⟨?_, ?_, ?_⟩
  · by_cases heq : c = t
    · subst heq
      simp [selectSpecificMonthTrace, List.count_cons]
    · simp only [selectSpecificMonthTrace, if_neg heq]
      have hcount : (PickerAct.readMonth ::
          (clickReadSeq (monthClickDelta c t) ++ [PickerAct.readMonth])).count
            PickerAct.clickNext = monthClickDelta c t := by
        simp [List.count_cons, List.count_append, clickReadSeq_count]
      rw [hcount]
      unfold monthClickDelta
      split_ifs with hlt <;> omega
  · intro heq
    simp [selectSpecificMonthTrace, heq, List.count_cons]
  · intro i h
    by_cases heq : c = t
    · rw [selectSpecificMonthTrace, if_pos heq] at h
      cases i with
      | zero => simp at h
      | succ k => simp at h
    · rw [selectSpecificMonthTrace, if_neg heq] at h ⊢
      cases i with
      | zero => simp at h
      | succ k => exact clickReadSeq_followed (monthClickDelta c t) k h

/-- C8 witness: navigating from displayed month 11 to target month 2 issues
`((2 - 11) mod 12) = 3` clicks. -/
theorem month_navigation_click_count_witness :
    (selectSpecificMonthTrace 11 2).count PickerAct.clickNext =
      ((2 - 11 : Int) % 12).toNat :=
  (month_navigation_click_count 11 2 (by decide) (by decide) (by decide) (by decide)).1

theorem get?_mem_of {α : Type} :
    ∀ (l : List α) (n : Nat) (a : α), l.get? n = some a → a ∈ l := by
  intro l
  induction l with
  | nil => intro n a h; simp at h
  | cons x xs ih =>
      intro n a h
      cases n with
      | zero =>
          simp only [List.get?] at h
          cases Option.some.inj h
          exact List.mem_cons_self x xs
      | succ m => exact List.mem_cons_of_mem x (ih m a h)

theorem selectDayScan_some (day : Int) :
    ∀ (cells : List DayCell) (i j : Nat), selectDayScan day i cells = some j →
      i ≤ j ∧ ∃ c, cells.get? (j - i) = some c ∧ cellMatches day c = true ∧
        dayCellDisabled c = false := by
  intro cells
  induction cells with
  | nil => intro i j h; simp [selectDayScan] at h
  | cons c rest ih =>
      intro i j h
      simp only [selectDayScan] at h
      cases htext : c.text with
      | none =>
          simp only [htext] at h
          obtain ⟨hij, c', hc', hm, hd⟩ := ih (i + 1) j h
          refine ⟨by omega, c', ?_, hm, hd⟩
          have hsub : j - i = (j - (i + 1)) + 1 := by omega
          rw [hsub]
          exact hc'
      | some txt =>
          simp only [htext] at h
          cases hatoi : atoi (goTrim txt) with
          | none =>
              simp only [hatoi] at h
              obtain ⟨hij, c', hc', hm, hd⟩ := ih (i + 1) j h
              refine ⟨by omega, c', ?_, hm, hd⟩
              have hsub : j - i = (j - (i + 1)) + 1 := by omega
              rw [hsub]
              exact hc'
          | some d =>
              simp only [hatoi] at h
              by_cases hday : d = day
              · subst hday
                rw [if_pos rfl] at h
                by_cases hdis : dayCellDisabled c = true
                · rw [if_pos hdis] at h
                  obtain ⟨hij, c', hc', hm, hd'⟩ := ih (i + 1) j h
                  refine ⟨by omega, c', ?_, hm, hd'⟩
                  have hsub : j - i = (j - (i + 1)) + 1 := by omega
                  rw [hsub]
                  exact hc'
                · rw [if_neg hdis] at h
                  cases Option.some.inj h
                  refine ⟨le_refl i, c, ?_, ?_, ?_⟩
                  · have hsub : i - i = 0 := Nat.sub_self i
                    rw [hsub]
                    rfl
                  · simp [cellMatches, htext, hatoi]
                  · simpa using hdis
              · rw [if_neg hday] at h
                obtain ⟨hij, c', hc', hm, hd⟩ := ih (i + 1) j h
                refine ⟨by omega, c', ?_, hm, hd⟩
                have hsub : j - i = (j - (i + 1)) + 1 := by omega
                rw [hsub]
                exact hc'

theorem selectDayScan_none_of (day : Int) :
    ∀ (cells : List DayCell) (i : Nat),
      (∀ c ∈ cells, cellMatches day c = true → dayCellDisabled c = true) →
      selectDayScan day i cells = none := by
  intro cells
  induction cells with
  | nil => intro i _; rfl
  | cons c rest ih =>
      intro i hyp
      have htail := ih (i + 1) (fun u hu hm => hyp u (List.mem_cons_of_mem _ hu) hm)
      cases htext : c.text with
      | none => simp [selectDayScan, htext, htail]
      | some txt =>
          cases hatoi : atoi (goTrim txt) with
          | none => simp [selectDayScan, htext, hatoi, htail]
          | some d =>
              by_cases hday : d = day
              · subst hday
                have hm : cellMatches d c = true := by simp [cellMatches, htext, hatoi]
                have hdis := hyp c (List.mem_cons_self c rest) hm
                simp [selectDayScan, htext, hatoi, hdis, htail]
              · simp [selectDayScan, htext, hatoi, hday, htail]

theorem selectDayScanOpt_some (day : Int) :
    ∀ (cells : List DayCell) (i j : Nat), selectDayScanOpt day i cells = some j →
      i ≤ j ∧ ∃ c, cells.get? (j - i) = some c ∧ cellMatches day c = true := by
  intro cells
  induction cells with
  | nil => intro i j h; simp [selectDayScanOpt] at h
  | cons c rest ih =>
      intro i j h
      simp only [selectDayScanOpt] at h
      cases htext : c.text with
      | none =>
          simp only [htext] at h
          obtain ⟨hij, c', hc', hm⟩ := ih (i + 1) j h
          refine ⟨by omega, c', ?_, hm⟩
          have hsub : j - i = (j - (i + 1)) + 1 := by omega
          rw [hsub]
          exact hc'
      | some txt =>
          simp only [htext] at h
          cases hatoi : atoi (goTrim txt) with
          | none =>
              simp only [hatoi] at h
              obtain ⟨hij, c', hc', hm⟩ := ih (i + 1) j h
              refine ⟨by omega, c', ?_, hm⟩
              have hsub : j - i = (j - (i + 1)) + 1 := by omega
              rw [hsub]
              exact hc'
          | some d =>
              simp only [hatoi] at h
              by_cases hday : d = day
              · subst hday
                rw [if_pos rfl] at h
                cases Option.some.inj h
                refine ⟨le_refl i, c, ?_, ?_⟩
                · have hsub : i - i = 0 := Nat.sub_self i
                  rw [hsub]
                  rfl
                · simp [cellMatches, htext, hatoi]
              · rw [if_neg hday] at h
                obtain ⟨hij, c', hc', hm⟩ := ih (i + 1) j h
                refine ⟨by omega, c', ?_, hm⟩
                have hsub : j - i = (j - (i + 1)) + 1 := by omega
                rw [hsub]
                exact hc'

theorem selectDayScanOpt_none_of (day : Int) :
    ∀ (cells : List DayCell) (i : Nat),
      (∀ c ∈ cells, cellMatches day c = false) →
      selectDayScanOpt day i cells = none := by
  intro cells
  induction cells with
  | nil => intro i _; rfl
  | cons c rest ih =>
      intro i hyp
      have htail := ih (i + 1) (fun u hu => hyp u (List.mem_cons_of_mem _ hu))
      have hc := hyp c (List.mem_cons_self c rest)
      cases htext : c.text with
      | none => simp [selectDayScanOpt, htext, htail]
      | some txt =>
          cases hatoi : atoi (goTrim txt) with
          | none => simp [selectDayScanOpt, htext, hatoi, htail]
          | some d =>
              by_cases hday : d = day
              · subst hday
                have : cellMatches d c = true := by simp [cellMatches, htext, hatoi]
                rw [this] at hc
                cases hc
              · simp [selectDayScanOpt, htext, hatoi, hday, htail]

/-- C7: in both day-selection procedures a click is only ever issued on a
cell whose trimmed text parses to exactly the requested day and which is not
disabled (for the optimized variant: not carrying the disabled class token,
its index being into the filtered cell list); and when every cell that
parses to the requested day is disabled — in particular when no cell parses
to it at all — the procedure fails with the error naming that day. -/
theorem day_selection_exact_and_skips_disabled (day : Int) (cells : List DayCell) :
    (∀ i, selectSpecificDay day cells = .ok i →
      ∃ c, cells.get? i = some c ∧ cellMatches day c = true ∧
        dayCellDisabled c = false) ∧
    ((∀ c ∈ cells, cellMatches day c = true → dayCellDisabled c = true) →
      selectSpecificDay day cells = .error ("日期 " ++ toString day ++ " 未找到")) ∧
    (∀ i, selectSpecificDayOptimized day cells = .ok i →
      ∃ c, (cells.filter (fun c => !dayCellDisabledTok c)).get? i = some c ∧
        cellMatches day c = true ∧ dayCellDisabledTok c = false) ∧
    ((∀ c ∈ cells, cellMatches day c = true → dayCellDisabledTok c = true) →
      selectSpecificDayOptimized day cells = .error ("日期 " ++ toString day ++ " 不可选择")) := by
  refine ⟨?_, ?_, ?_, ?_⟩
  · intro i h
    unfold selectSpecificDay at h
    cases hscan : selectDayScan day 0 cells with
    | none => rw [hscan] at h; simp at h
    | some j =>
        rw [hscan] at h
        simp only [Except.ok.injEq] at h
        subst h
        obtain ⟨_, c, hc, hm, hd⟩ := selectDayScan_some day cells 0 j hscan
        exact ⟨c, hc, hm, hd⟩
  · intro hyp
    have hnone := selectDayScan_none_of day cells 0 hyp
    simp [selectSpecificDay, hnone]
  · intro i h
    unfold selectSpecificDayOptimized at h
    cases hscan : selectDayScanOpt day 0 (cells.filter fun c => !dayCellDisabledTok c) with
    | none => rw [hscan] at h; simp at h
    | some j =>
        rw [hscan] at h
        simp only [Except.ok.injEq] at h
        subst h
        obtain ⟨_, c, hc, hm⟩ := selectDayScanOpt_some day _ 0 j hscan
        refine ⟨c, hc, hm, ?_⟩
        have hmem : c ∈ cells.filter (fun c => !dayCellDisabledTok c) :=
          get?_mem_of _ j c hc
        have := (List.mem_filter.mp hmem).2
        simpa using this
  · intro hyp
    have hfil : ∀ c ∈ cells.filter (fun c => !dayCellDisabledTok c),
        cellMatches day c = false := by
      intro c hc
      rcases List.mem_filter.mp hc with ⟨hmem, hnot⟩
      by_cases hm : cellMatches day c = true
      · have htok := hyp c hmem hm
        rw [htok] at hnot
        simp at hnot
      · simpa using hm
    have hnone := selectDayScanOpt_none_of day _ 0 hfil
    simp [selectSpecificDayOptimized, hnone]

/-- C7 witness: a grid whose only cell carrying the requested day 7 is
disabled yields the day-naming error. -/
theorem day_selection_witness :
    selectSpecificDay 7 [⟨some "4", ""⟩, ⟨some "7", "x disabled"⟩] =
      .error ("日期 " ++ toString (7 : Int) ++ " 未找到") :=
  (day_selection_exact_and_skips_disabled 7
      [⟨some "4", ""⟩, ⟨some "7", "x disabled"⟩]).2.1 (by decide)
